import Mathlib

/-!
Shallow embedding of `src/cursor-effect.js`, a cursor particle-explosion
effect, together with proofs of the specified properties.

Modelling conventions:
* JavaScript number arithmetic is modelled over `ℝ`.
* `Math.random()` results are passed in explicitly as real draws in `[0, 1)`
  (per-particle draw records for `Boom.init`).
* The host scheduler (`requestAnimationFrame` / `cancelAnimationFrame`) is
  modelled inside the system state as the list of outstanding registration
  ids (`pending`) plus a fresh-id counter (`nextId`).
* Canvas pixel contents are outside the model; canvases keep only their size.
-/

open scoped Classical

namespace CursorFx

/-- A 2-D point, as the `{x, y}` objects of the source. -/
structure Point where
  x : ℝ
  y : ℝ

/-- The `Circle` particle class: `origin`, `position`, `color`, `speed`,
`angle`, `renderCount` (the drawing `context` is an external collaborator and
is not part of the model). -/
structure Circle where
  origin : Point
  position : Point
  color : String
  speed : ℝ
  angle : ℝ
  renderCount : ℕ

/-- The `Circle` constructor: copies `origin` into `position`, starts
`renderCount` at `0`. -/
def Circle.new (origin : Point) (color : String) (angle : ℝ) (speed : ℝ) :
    Circle :=
  { origin := origin, position := origin, color := color, speed := speed,
    angle := angle, renderCount := 0 }

/-- Method `Circle.move()`:
`position.x += Math.sin(angle) * speed`;
`position.y += Math.cos(angle) * speed + renderCount * 0.3`;
`renderCount++`. -/
noncomputable def Circle.move (c : Circle) : Circle :=
  { c with
    position :=
      { x := c.position.x + Real.sin c.angle * c.speed
        y := c.position.y + (Real.cos c.angle * c.speed + (c.renderCount : ℝ) * 0.3) }
    renderCount := c.renderCount + 1 }

/-- Result of `n` successive calls of `Circle.move()`. -/
noncomputable def Circle.moveN (n : ℕ) (c : Circle) : Circle :=
  Circle.move^[n] c

theorem Circle.moveN_zero (c : Circle) : Circle.moveN 0 c = c := rfl

theorem Circle.moveN_succ (n : ℕ) (c : Circle) :
    Circle.moveN (n + 1) c = Circle.move (Circle.moveN n c) :=
  Function.iterate_succ_apply' _ _ _

theorem Circle.moveN_succ_inner (n : ℕ) (c : Circle) :
    Circle.moveN (n + 1) c = Circle.moveN n (Circle.move c) :=
  Function.iterate_succ_apply _ _ _

theorem Circle.moveN_angle (n : ℕ) (c : Circle) :
    (Circle.moveN n c).angle = c.angle := by
  induction n with
  | zero => rfl
  | succ n ih => rw [Circle.moveN_succ]; simpa [Circle.move] using ih

theorem Circle.moveN_speed (n : ℕ) (c : Circle) :
    (Circle.moveN n c).speed = c.speed := by
  induction n with
  | zero => rfl
  | succ n ih => rw [Circle.moveN_succ]; simpa [Circle.move] using ih

theorem Circle.moveN_origin (n : ℕ) (c : Circle) :
    (Circle.moveN n c).origin = c.origin := by
  induction n with
  | zero => rfl
  | succ n ih => rw [Circle.moveN_succ]; simpa [Circle.move] using ih

theorem Circle.moveN_renderCount (n : ℕ) (c : Circle) :
    (Circle.moveN n c).renderCount = c.renderCount + n := by
  induction n with
  | zero => rfl
  | succ n ih => rw [Circle.moveN_succ]; simp [Circle.move, ih]; ring

theorem Circle.moveN_position_x (n : ℕ) (c : Circle) :
    (Circle.moveN n c).position.x
      = c.position.x + (n : ℝ) * (Real.sin c.angle * c.speed) := by
  induction n with
  | zero => simp [Circle.moveN_zero]
  | succ n ih =>
    rw [Circle.moveN_succ]
    simp only [Circle.move, Circle.moveN_angle, Circle.moveN_speed, ih]
    push_cast
    ring

theorem Circle.moveN_position_y (n : ℕ) (c : Circle) :
    (Circle.moveN n c).position.y
      = c.position.y + (n : ℝ) * (Real.cos c.angle * c.speed)
        + (∑ i in Finset.range n, ((c.renderCount : ℝ) + (i : ℝ))) * 0.3 := by
  induction n with
  | zero => simp [Circle.moveN_zero]
  | succ n ih =>
    rw [Circle.moveN_succ]
    simp only [Circle.move, Circle.moveN_angle, Circle.moveN_speed,
      Circle.moveN_renderCount, ih, Finset.sum_range_succ]
    push_cast
    ring

/-- The boundary rectangle `{width, height}` passed to `Boom` as `area`. -/
structure Area where
  width : ℝ
  height : ℝ

/-- The `Boom` burst class: `origin`, `circleCount`, `area`, `stop`,
`circles` (the drawing `context` is external and not modelled).  The
constructor defaults `circleCount` to 10; callers of the model pass it
explicitly. -/
structure Boom where
  origin : Point
  circleCount : ℕ
  area : Area
  stop : Bool
  circles : List Circle

/-- The `Boom` constructor: `stop = false`, `circles = []`. -/
def Boom.new (origin : Point) (circleCount : ℕ) (area : Area) : Boom :=
  { origin := origin, circleCount := circleCount, area := area,
    stop := false, circles := [] }

/-- Method `Boom.#randomArray(range)`: `range[Math.floor(range.length * r)]` where
`r` is the `Math.random()` draw; a negative or too-large index yields
`undefined`, modelled as `none`. -/
noncomputable def Boom.randomArray (range : List String) (r : ℝ) :
    Option String :=
  if ⌊(range.length : ℝ) * r⌋ < 0 then none
  else range.get? (⌊(range.length : ℝ) * r⌋).toNat

/-- The palette of `Boom.#randomColor`: `['8','9','A','B','C','D','E','F']`. -/
def colorRange : List String := ["8", "9", "A", "B", "C", "D", "E", "F"]

/-- How `Array.prototype.join('')` renders one element: `undefined` becomes
the empty string, any string stays itself. -/
def jsJoinElem : Option String → String
  | some s => s
  | none => ""

/-- Method `Boom.#randomColor()`: `'#' + [...Array(6)].map(() =>
randomArray(range)).join('')`, with the six `Math.random()` draws passed in
as `rs`. -/
noncomputable def Boom.randomColor (rs : Fin 6 → ℝ) : String :=
  "#" ++ String.join
    ((List.finRange 6).map fun i => jsJoinElem (Boom.randomArray colorRange (rs i)))

/-- Method `Boom.#randomRange(start, end)`: `(end - start) * r + start` where `r` is
the `Math.random()` draw. -/
noncomputable def Boom.randomRange (a b r : ℝ) : ℝ :=
  (b - a) * r + a

/-- The `Math.random()` draws consumed when `Boom.init` creates one particle:
six draws for the color, one for the angle, one for the speed. -/
structure RandomDraws where
  colorDraws : Fin 6 → ℝ
  angleDraw : ℝ
  speedDraw : ℝ

/-- All draws of a `RandomDraws` record lie in `[0, 1)`, as `Math.random()`
guarantees. -/
def RandomDraws.valid (d : RandomDraws) : Prop :=
  (∀ i, 0 ≤ d.colorDraws i ∧ d.colorDraws i < 1)
    ∧ (0 ≤ d.angleDraw ∧ d.angleDraw < 1)
    ∧ (0 ≤ d.speedDraw ∧ d.speedDraw < 1)

/-- Method `Boom.init()`: pushes `circleCount` particles onto `circles`, particle
`i` built from the draw record `draws i` with `origin` the burst's origin,
a random color, `angle = randomRange(π − 1, π + 1)` and
`speed = randomRange(1, 6)`. -/
noncomputable def Boom.init (draws : ℕ → RandomDraws) (b : Boom) : Boom :=
  { b with
    circles := b.circles ++ (List.range b.circleCount).map fun i =>
      Circle.new b.origin (Boom.randomColor (draws i).colorDraws)
        (Boom.randomRange (Real.pi - 1) (Real.pi + 1) (draws i).angleDraw)
        (Boom.randomRange 1 6 (draws i).speedDraw) }

/-- The out-of-bounds test of `Boom.move()`:
`position.x < 0 || position.x > area.width || position.y > area.height`. -/
def outOfBounds (area : Area) (c : Circle) : Prop :=
  c.position.x < 0 ∨ c.position.x > area.width ∨ c.position.y > area.height

/-- The body of the reverse `for` loop of `Boom.move()`: every particle is
moved once and spliced out when its new position is out of bounds (the
reverse traversal visits each original entry exactly once, so its net effect
is this structural recursion: tail processed first, then the head). -/
noncomputable def Boom.moveCircles (area : Area) : List Circle → List Circle
  | [] => []
  | c :: rest =>
    let rest' := Boom.moveCircles area rest
    let c' := c.move
    if outOfBounds area c' then rest' else c' :: rest'

/-- Method `Boom.move()`: run the cull loop, then `stop = (circles.length === 0)`. -/
noncomputable def Boom.move (b : Boom) : Boom :=
  let circles := Boom.moveCircles b.area b.circles
  { b with circles := circles, stop := circles.length == 0 }

/-- Result of `n` successive calls of `Boom.move()`. -/
noncomputable def Boom.moveN (n : ℕ) (b : Boom) : Boom :=
  Boom.move^[n] b

theorem Boom.burstMoveN_zero (b : Boom) : Boom.moveN 0 b = b := rfl

theorem Boom.burstMoveN_succ (n : ℕ) (b : Boom) :
    Boom.moveN (n + 1) b = Boom.move (Boom.moveN n b) :=
  Function.iterate_succ_apply' _ _ _

theorem Boom.burstMoveN_succ_inner (n : ℕ) (b : Boom) :
    Boom.moveN (n + 1) b = Boom.moveN n (Boom.move b) :=
  Function.iterate_succ_apply _ _ _

theorem Boom.moveCircles_eq_filter (area : Area) (l : List Circle) :
    Boom.moveCircles area l
      = (l.map Circle.move).filter fun c => decide (¬ outOfBounds area c) := by
  induction l with
  | nil => rfl
  | cons c rest ih =>
    by_cases h : outOfBounds area c.move <;>
      simp [Boom.moveCircles, h, ih]

theorem Boom.move_area (b : Boom) : (Boom.move b).area = b.area := rfl

theorem Boom.moveN_area (n : ℕ) (b : Boom) :
    (Boom.moveN n b).area = b.area := by
  induction n with
  | zero => rfl
  | succ n ih => rw [Boom.burstMoveN_succ]; simpa [Boom.move_area] using ih

theorem Boom.move_circles (b : Boom) :
    (Boom.move b).circles = Boom.moveCircles b.area b.circles := rfl

theorem Boom.move_stop_iff (b : Boom) :
    (Boom.move b).stop = true ↔ (Boom.move b).circles = [] := by
  simp [Boom.move, List.length_eq_zero]

theorem Boom.move_length_le (b : Boom) :
    (Boom.move b).circles.length ≤ b.circles.length := by
  rw [Boom.move_circles, Boom.moveCircles_eq_filter]
  exact le_trans (List.length_filter_le _ _) (le_of_eq (List.length_map _ _))

theorem Boom.move_of_nil (b : Boom) (h : b.circles = []) :
    (Boom.move b).circles = [] ∧ (Boom.move b).stop = true := by
  simp [Boom.move, h, Boom.moveCircles]

theorem Boom.moveN_circles_nil (b : Boom) (h : b.circles = []) :
    ∀ t, (Boom.moveN t b).circles = []
  | 0 => h
  | t + 1 => by
    rw [Boom.burstMoveN_succ]
    exact (Boom.move_of_nil _ (Boom.moveN_circles_nil b h t)).1

theorem Boom.stop_persists (b : Boom) (h0 : b.stop = false) (n m : ℕ)
    (hnm : n ≤ m) (h : (Boom.moveN n b).stop = true) :
    (Boom.moveN m b).stop = true := by
  cases n with
  | zero => rw [Boom.burstMoveN_zero] at h; rw [h0] at h; exact absurd h (by simp)
  | succ s =>
    have hnil : (Boom.moveN (s + 1) b).circles = [] := by
      rw [Boom.burstMoveN_succ] at h ⊢
      exact (Boom.move_stop_iff _).1 h
    obtain ⟨t, rfl⟩ : ∃ t, m = t + (s + 1) :=
      ⟨m - (s + 1), (Nat.sub_add_cancel hnm).symm⟩
    rw [Boom.moveN, Function.iterate_add_apply]
    cases t with
    | zero => exact h
    | succ u =>
      rw [show Boom.move^[u + 1] = Boom.moveN (u + 1) from rfl, Boom.burstMoveN_succ]
      exact (Boom.move_of_nil _
        (Boom.moveN_circles_nil _ hnil u)).2

theorem Boom.randomArray_spec (range : List String) (hne : range ≠ [])
    (r : ℝ) (h0 : 0 ≤ r) (h1 : r < 1) :
    Boom.randomArray range r = range.get? (⌊(range.length : ℝ) * r⌋).toNat
    ∧ (⌊(range.length : ℝ) * r⌋).toNat < range.length
    ∧ ∃ x, Boom.randomArray range r = some x ∧ x ∈ range := by
  have hlen : 0 < range.length := List.length_pos.2 hne
  have hflo : 0 ≤ ⌊(range.length : ℝ) * r⌋ :=
    Int.floor_nonneg.2 (mul_nonneg (by positivity) h0)
  have heq : Boom.randomArray range r
      = range.get? (⌊(range.length : ℝ) * r⌋).toNat := by
    rw [Boom.randomArray, if_neg (not_lt.2 hflo)]
  have hlt : ⌊(range.length : ℝ) * r⌋ < (range.length : ℤ) := by
    refine Int.floor_lt.2 ?_
    push_cast
    exact mul_lt_of_lt_one_right (by exact_mod_cast hlen) h1
  have htn : (⌊(range.length : ℝ) * r⌋).toNat < range.length := by omega
  refine ⟨heq, htn, range.get ⟨_, htn⟩, ?_, List.get_mem _ _ _⟩
  rw [heq]
  exact List.get?_eq_get htn

theorem Boom.randomColor_spec (rs : Fin 6 → ℝ)
    (h : ∀ i, 0 ≤ rs i ∧ rs i < 1) :
    ∃ l : List String, l.length = 6 ∧ (∀ x ∈ l, x ∈ colorRange)
      ∧ Boom.randomColor rs = "#" ++ String.join l := by
  refine ⟨(List.finRange 6).map fun i =>
    jsJoinElem (Boom.randomArray colorRange (rs i)), by simp, ?_, rfl⟩
  intro x hx
  simp only [List.mem_map, List.mem_finRange, true_and] at hx
  obtain ⟨i, hi⟩ := hx
  obtain ⟨y, heq, hmem⟩ :=
    (Boom.randomArray_spec colorRange (by simp [colorRange]) (rs i)
      (h i).1 (h i).2).2.2
  rw [← hi, heq]
  simpa [jsJoinElem] using hmem

theorem Boom.randomRange_bounds (a b r : ℝ) (hab : a ≤ b)
    (h0 : 0 ≤ r) (h1 : r < 1) :
    a ≤ Boom.randomRange a b r ∧ Boom.randomRange a b r ≤ b := by
  unfold Boom.randomRange
  constructor
  · nlinarith
  · nlinarith

theorem Boom.mem_init (o : Point) (area : Area) (k : ℕ)
    (draws : ℕ → RandomDraws) (c : Circle) :
    c ∈ ((Boom.new o k area).init draws).circles ↔
      ∃ i < k, c = Circle.new o (Boom.randomColor (draws i).colorDraws)
          (Boom.randomRange (Real.pi - 1) (Real.pi + 1) (draws i).angleDraw)
          (Boom.randomRange 1 6 (draws i).speedDraw) := by
  simp [Boom.init, Boom.new, eq_comm]

theorem outOfBounds_of_y (area : Area) (c : Circle)
    (h : area.height < c.position.y) : outOfBounds area c :=
  Or.inr (Or.inr h)

theorem sum_range_id_real (n : ℕ) :
    ∑ i in Finset.range n, (i : ℝ) = (n : ℝ) * ((n : ℝ) - 1) / 2 := by
  induction n with
  | zero => simp
  | succ n ih =>
    rw [Finset.sum_range_succ, ih]
    push_cast
    ring

theorem Circle.moveN_y_lower (c : Circle) (hs0 : 0 ≤ c.speed)
    (hs6 : c.speed ≤ 6) (n : ℕ) :
    c.position.y + (n : ℝ) * (-6) + ((n : ℝ) * ((n : ℝ) - 1) / 2) * 0.3
      ≤ (Circle.moveN n c).position.y := by
  rw [Circle.moveN_position_y]
  have hcos : -6 ≤ Real.cos c.angle * c.speed := by
    nlinarith [Real.neg_one_le_cos c.angle, Real.cos_le_one c.angle]
  have hsum : (n : ℝ) * ((n : ℝ) - 1) / 2
      ≤ ∑ i in Finset.range n, ((c.renderCount : ℝ) + (i : ℝ)) := by
    rw [← sum_range_id_real]
    refine Finset.sum_le_sum fun i _ => ?_
    have : (0 : ℝ) ≤ (c.renderCount : ℝ) := Nat.cast_nonneg _
    linarith
  have h2 : (n : ℝ) * (-6) ≤ (n : ℝ) * (Real.cos c.angle * c.speed) :=
    mul_le_mul_of_nonneg_left hcos (Nat.cast_nonneg n)
  have h3 : ((n : ℝ) * ((n : ℝ) - 1) / 2) * 0.3
      ≤ (∑ i in Finset.range n, ((c.renderCount : ℝ) + (i : ℝ))) * 0.3 :=
    mul_le_mul_of_nonneg_right hsum (by norm_num)
  linarith

theorem Circle.escape (c : Circle) (hs0 : 0 ≤ c.speed) (hs6 : c.speed ≤ 6)
    (H : ℝ) :
    ∃ n : ℕ, 1 ≤ n ∧ H < (Circle.moveN n c).position.y := by
  obtain ⟨N, hN⟩ := exists_nat_gt (7 * (H - c.position.y))
  refine ⟨N + 42, by omega, ?_⟩
  have hlow := Circle.moveN_y_lower c hs0 hs6 (N + 42)
  have hcast : ((N + 42 : ℕ) : ℝ) = (N : ℝ) + 42 := by push_cast; ring
  rw [hcast] at hlow
  nlinarith [hlow, hN, Nat.cast_nonneg (α := ℝ) N, sq_nonneg ((N : ℝ))]

theorem Boom.mem_moveCircles (area : Area) (l : List Circle) (d : Circle) :
    d ∈ Boom.moveCircles area l
      ↔ ∃ c ∈ l, d = Circle.move c ∧ ¬ outOfBounds area d := by
  rw [Boom.moveCircles_eq_filter]
  simp only [List.mem_filter, List.mem_map, decide_eq_true_eq]
  constructor
  · rintro ⟨⟨c, hc, rfl⟩, hno⟩
    exact ⟨c, hc, rfl, hno⟩
  · rintro ⟨c, hc, rfl, hno⟩
    exact ⟨⟨c, hc, rfl⟩, hno⟩

theorem Boom.mem_moveN (b : Boom) (T : ℕ) (d : Circle)
    (hd : d ∈ (Boom.moveN T b).circles) :
    ∃ c ∈ b.circles, d = Circle.moveN T c
      ∧ ∀ s, 1 ≤ s → s ≤ T → ¬ outOfBounds b.area (Circle.moveN s c) := by
  induction T generalizing d with
  | zero => exact ⟨d, hd, rfl, fun s h1 h0 => absurd (le_trans h1 h0) (by omega)⟩
  | succ T ih =>
    rw [Boom.burstMoveN_succ, Boom.move_circles] at hd
    obtain ⟨e, he, rfl, hno⟩ := (Boom.mem_moveCircles _ _ _).1 hd
    obtain ⟨c, hc, rfl, hsurv⟩ := ih e he
    refine ⟨c, hc, (Circle.moveN_succ T c).symm, ?_⟩
    intro s h1 hsT
    rcases Nat.lt_or_ge s (T + 1) with hlt | hge
    · exact hsurv s h1 (by omega)
    · have hs : s = T + 1 := by omega
      subst hs
      rw [Circle.moveN_succ]
      rwa [Boom.moveN_area] at hno

theorem exists_uniform_escape (area : Area) (l : List Circle)
    (h : ∀ c ∈ l, 0 ≤ c.speed ∧ c.speed ≤ 6) :
    ∃ T, ∀ c ∈ l, ∃ n, 1 ≤ n ∧ n ≤ T
      ∧ outOfBounds area (Circle.moveN n c) := by
  induction l with
  | nil => exact ⟨1, by simp⟩
  | cons c rest ih =>
    obtain ⟨T, hT⟩ := ih fun x hx => h x (List.mem_cons_of_mem _ hx)
    obtain ⟨n, hn1, hny⟩ :=
      Circle.escape c (h c (List.mem_cons_self _ _)).1
        (h c (List.mem_cons_self _ _)).2 area.height
    refine ⟨max n T, fun x hx => ?_⟩
    rcases List.mem_cons.1 hx with rfl | hx'
    · exact ⟨n, hn1, le_max_left _ _, outOfBounds_of_y _ _ hny⟩
    · obtain ⟨m, hm1, hmT, hmo⟩ := hT x hx'
      exact ⟨m, hm1, le_trans hmT (le_max_right _ _), hmo⟩

theorem Boom.exists_exhausted (b : Boom)
    (h : ∀ c ∈ b.circles, 0 ≤ c.speed ∧ c.speed ≤ 6) :
    ∃ T, 1 ≤ T ∧ (Boom.moveN T b).circles = []
      ∧ (Boom.moveN T b).stop = true := by
  obtain ⟨T, hT⟩ := exists_uniform_escape b.area b.circles h
  refine ⟨max T 1, le_max_right _ _, ?_⟩
  have hnil : (Boom.moveN (max T 1) b).circles = [] := by
    by_contra hne
    obtain ⟨d, hd⟩ := List.exists_mem_of_ne_nil _ hne
    obtain ⟨c, hc, -, hsurv⟩ := Boom.mem_moveN b (max T 1) d hd
    obtain ⟨n, hn1, hnT, hno⟩ := hT c hc
    exact hsurv n hn1 (le_trans hnT (le_max_left _ _)) hno
  refine ⟨hnil, ?_⟩
  obtain ⟨t, ht⟩ : ∃ t, max T 1 = t + 1 :=
    ⟨max T 1 - 1, by omega⟩
  rw [ht] at hnil ⊢
  rw [Boom.burstMoveN_succ] at hnil ⊢
  exact (Boom.move_stop_iff _).2 hnil

/-- A canvas, reduced to its size (pixel contents are outside the model). -/
structure Canvas where
  width : ℝ
  height : ℝ

/-- The `CursorSpecialEffects` controller state, together with the host
scheduler model: `pending` lists the outstanding `requestAnimationFrame`
registration ids (requested, not yet fired, not cancelled) and `nextId` is
the host's source of fresh nonzero handles. -/
structure Sys where
  computerCanvas : Canvas
  renderCanvas : Canvas
  globalWidth : ℝ
  globalHeight : ℝ
  booms : List Boom
  running : Bool
  animationId : Option ℕ
  pending : List ℕ
  nextId : ℕ

/-- Method `stopAnimation()`: if `animationId` is non-null, `cancelAnimationFrame`
it (drop it from the outstanding registrations when still there, no-op
otherwise) and null the handle; then `running = false`. -/
def stopAnimation (s : Sys) : Sys :=
  match s.animationId with
  | some k =>
      { s with
        pending := s.pending.erase k
        animationId := none
        running := false }
  | none => { s with running := false }

/-- The body of the reverse `for` loop of `run()`: a burst already stopped is
spliced out without moving; the rest are moved (and drawn, outside the
model).  The reverse traversal visits each original entry exactly once, so
its net effect is this structural recursion: tail first, then the head. -/
noncomputable def processBooms : List Boom → List Boom
  | [] => []
  | b :: rest =>
    let rest' := processBooms rest
    if b.stop then rest' else Boom.move b :: rest'

/-- Method `run()`: set `running = true`; if no bursts remain, `stopAnimation()` and
return; otherwise store `animationId = requestAnimationFrame(run)` (modelled
as appending the fresh id to `pending`), clear both canvases (pixels are
outside the model), then step/cull and draw every burst. -/
noncomputable def run (s : Sys) : Sys :=
  if s.booms.length = 0 then stopAnimation { s with running := true }
  else
    { s with
      running := true
      animationId := some s.nextId
      pending := s.pending ++ [s.nextId]
      nextId := s.nextId + 1
      booms := processBooms s.booms }

/-- One animation frame fired by the host: the outstanding registration is
consumed and its callback (`run`) executes; with no outstanding registration
nothing happens. -/
noncomputable def fire (s : Sys) : Sys :=
  match s.pending with
  | [] => s
  | _ :: rest => run { s with pending := rest }

/-- The burst a `mousedown` at `(x, y)` creates: origin at the event
coordinates, the current viewport snapshot as `area`, the default
`circleCount = 10`, then `init()`. -/
noncomputable def spawnBoom (s : Sys) (x y : ℝ) (draws : ℕ → RandomDraws) :
    Boom :=
  (Boom.new ⟨x, y⟩ 10 ⟨s.globalWidth, s.globalHeight⟩).init draws

/-- Method `handleMouseDown(e)`: build and init the burst, push it, then start the
loop only when not already running. -/
noncomputable def handleMouseDown (x y : ℝ) (draws : ℕ → RandomDraws)
    (s : Sys) : Sys :=
  if s.running then { s with booms := s.booms ++ [spawnBoom s x y draws] }
  else run { s with booms := s.booms ++ [spawnBoom s x y draws] }

/-- Method `handleResize()` with the new ambient viewport `(w, h)`: refresh
`globalWidth`/`globalHeight` and resize both canvases. -/
def handleResize (w h : ℝ) (s : Sys) : Sys :=
  { s with
    globalWidth := w
    globalHeight := h
    renderCanvas := ⟨w, h⟩
    computerCanvas := ⟨w, h⟩ }

/-- Method `handlePageHide()`: clear the bursts, then `stopAnimation()`. -/
def handlePageHide (s : Sys) : Sys :=
  stopAnimation { s with booms := [] }

/-- The controller state right after the constructor plus `init()` (which
calls `handleResize` once): canvases sized to the viewport, no bursts, not
running, no registration outstanding. -/
def initState (w h : ℝ) : Sys :=
  { computerCanvas := ⟨w, h⟩, renderCanvas := ⟨w, h⟩,
    globalWidth := w, globalHeight := h, booms := [], running := false,
    animationId := none, pending := [], nextId := 1 }

/-- The external events the controller reacts to. -/
inductive Event where
  | mousedown (x y : ℝ) (draws : ℕ → RandomDraws)
  | frame
  | resize (w h : ℝ)
  | pagehide

/-- One event transition. -/
noncomputable def stepEv : Event → Sys → Sys
  | Event.mousedown x y draws, s => handleMouseDown x y draws s
  | Event.frame, s => fire s
  | Event.resize w h, s => handleResize w h s
  | Event.pagehide, s => handlePageHide s

/-- States reachable from startup through event transitions. -/
inductive Reachable : Sys → Prop where
  | init (w h : ℝ) : Reachable (initState w h)
  | step {s : Sys} (e : Event) : Reachable s → Reachable (stepEv e s)

/-- The scheduling invariant: while `running`, exactly the registration
stored in `animationId` is outstanding; while not running, none is. -/
def SchedInv (s : Sys) : Prop :=
  (s.running = true → ∃ k, s.animationId = some k ∧ s.pending = [k])
    ∧ (s.running = false → s.pending = [])

theorem schedInv_initState (w h : ℝ) : SchedInv (initState w h) := by
  simp [SchedInv, initState]

theorem schedInv_run (s : Sys) (h : s.pending = []) : SchedInv (run s) := by
  obtain ⟨cc, rc, gw, gh, booms, running, aid, pending, nid⟩ := s
  simp only at h
  subst h
  by_cases hb : booms.length = 0
  · cases aid <;> simp [run, stopAnimation, SchedInv, hb]
  · simp [run, stopAnimation, SchedInv, hb]

theorem schedInv_step (s : Sys) (hs : SchedInv s) (e : Event) :
    SchedInv (stepEv e s) := by
  cases e with
  | mousedown x y draws =>
    by_cases hr : s.running = true
    · have : stepEv (Event.mousedown x y draws) s
          = { s with booms := s.booms ++ [spawnBoom s x y draws] } := by
        simp [stepEv, handleMouseDown, hr]
      rw [this]
      obtain ⟨h1, h2⟩ := hs
      exact ⟨fun hrr => h1 hrr, fun hrr => h2 hrr⟩
    · have hp : s.pending = [] := hs.2 (by simpa using hr)
      have : stepEv (Event.mousedown x y draws) s
          = run { s with booms := s.booms ++ [spawnBoom s x y draws] } := by
        simp [stepEv, handleMouseDown, hr]
      rw [this]
      exact schedInv_run _ hp
  | frame =>
    rcases hp : s.pending with _ | ⟨k, rest⟩
    · simpa [stepEv, fire, hp] using hs
    · have hr : s.running = true := by
        by_contra hr
        have := hs.2 (by simpa using hr)
        rw [hp] at this
        exact List.cons_ne_nil _ _ this
      obtain ⟨j, -, hpj⟩ := hs.1 hr
      rw [hp] at hpj
      have hrest : rest = [] := by
        injection hpj with h1 h2
      have : stepEv Event.frame s = run { s with pending := rest } := by
        simp [stepEv, fire, hp]
      rw [this, hrest]
      exact schedInv_run _ rfl
  | resize w h =>
    obtain ⟨h1, h2⟩ := hs
    exact ⟨fun hrr => h1 hrr, fun hrr => h2 hrr⟩
  | pagehide =>
    obtain ⟨cc, rc, gw, gh, booms, running, aid, pending, nid⟩ := s
    cases running with
    | false =>
      have hp : pending = [] := hs.2 rfl
      subst hp
      cases aid <;> simp [stepEv, handlePageHide, stopAnimation, SchedInv]
    | true =>
      obtain ⟨k, haid, hp⟩ := hs.1 rfl
      simp only at haid hp
      subst haid
      subst hp
      simp [stepEv, handlePageHide, stopAnimation, SchedInv, List.erase_cons]

theorem reachable_schedInv (s : Sys) (h : Reachable s) : SchedInv s := by
  induction h with
  | init w h => exact schedInv_initState w h
  | step e _ ih => exact schedInv_step _ ih e

theorem fire_single_active (s : Sys) (b : Boom) (k : ℕ)
    (hb : s.booms = [b]) (hp : s.pending = [k]) (hstop : b.stop = false) :
    fire s = { s with
      running := true
      booms := [Boom.move b]
      animationId := some s.nextId
      pending := [s.nextId]
      nextId := s.nextId + 1 } := by
  obtain ⟨cc, rc, gw, gh, booms, running, aid, pending, nid⟩ := s
  simp only at hb hp
  subst hb
  subst hp
  simp [fire, run, processBooms, hstop]

theorem fire_single_stopped (s : Sys) (b : Boom) (k : ℕ)
    (hb : s.booms = [b]) (hp : s.pending = [k]) (hstop : b.stop = true) :
    fire s = { s with
      running := true
      booms := []
      animationId := some s.nextId
      pending := [s.nextId]
      nextId := s.nextId + 1 } := by
  obtain ⟨cc, rc, gw, gh, booms, running, aid, pending, nid⟩ := s
  simp only at hb hp
  subst hb
  subst hp
  simp [fire, run, processBooms, hstop]

theorem fire_empty_booms (s : Sys) (k : ℕ) (hb : s.booms = [])
    (hp : s.pending = [k]) :
    (fire s).running = false ∧ (fire s).booms = []
      ∧ (fire s).pending = [] ∧ (fire s).animationId = none := by
  obtain ⟨cc, rc, gw, gh, booms, running, aid, pending, nid⟩ := s
  simp only at hb hp
  subst hb
  subst hp
  cases aid <;> simp [fire, run, stopAnimation]

theorem drain_stopped (s : Sys) (b : Boom) (k : ℕ) (hb : s.booms = [b])
    (hp : s.pending = [k]) (hstop : b.stop = true) :
    (fire^[2] s).running = false ∧ (fire^[2] s).booms = []
      ∧ (fire^[2] s).pending = [] ∧ (fire^[2] s).animationId = none := by
  have h1 := fire_single_stopped s b k hb hp hstop
  have h2 := fire_empty_booms (fire s) s.nextId (by simp [h1]) (by simp [h1])
  have hiter : fire^[2] s = fire (fire s) := by
    rw [Function.iterate_succ_apply', Function.iterate_one]
  rw [hiter]
  exact h2

theorem drain_to_idle (T : ℕ) (b : Boom) (s : Sys)
    (hT : (Boom.moveN T b).circles = []) (hb : s.booms = [b]) (k : ℕ)
    (hp : s.pending = [k]) :
    ∃ m, (fire^[m] s).running = false ∧ (fire^[m] s).booms = []
      ∧ (fire^[m] s).pending = [] ∧ (fire^[m] s).animationId = none := by
  induction T generalizing b s k with
  | zero =>
    rw [Boom.burstMoveN_zero] at hT
    cases hstop : b.stop with
    | true => exact ⟨2, drain_stopped s b k hb hp hstop⟩
    | false =>
      have h1 := fire_single_active s b k hb hp hstop
      have hms : (Boom.move b).stop = true := (Boom.move_of_nil b hT).2
      have h2 := drain_stopped (fire s) (Boom.move b) s.nextId
        (by simp [h1]) (by simp [h1]) hms
      refine ⟨3, ?_⟩
      have hiter : fire^[3] s = fire^[2] (fire s) := by
        rw [show (3 : ℕ) = 2 + 1 from rfl, Function.iterate_succ_apply]
      rw [hiter]
      exact h2
  | succ T ih =>
    cases hstop : b.stop with
    | true => exact ⟨2, drain_stopped s b k hb hp hstop⟩
    | false =>
      have h1 := fire_single_active s b k hb hp hstop
      have hT' : (Boom.moveN T (Boom.move b)).circles = [] := by
        rw [← Boom.burstMoveN_succ_inner]
        exact hT
      obtain ⟨m, hm⟩ := ih (Boom.move b) (fire s) hT' (by simp [h1])
        s.nextId (by simp [h1])
      refine ⟨m + 1, ?_⟩
      rw [Function.iterate_succ_apply]
      exact hm

/-- C1: for a freshly constructed particle with fixed angle and speed, after
`move()` is called `n` times, `position.x − origin.x = n·sin(angle)·speed` and
`position.y − origin.y = n·cos(angle)·speed + 0.3·(0+1+...+(n−1))`; moreover a
single `move()` adds `sin(angle)*speed` to `x`, adds
`cos(angle)*speed + renderCount*0.3` to `y`, and increments `renderCount`. -/
theorem particle_step_closed_form (o : Point) (col : String) (θ v : ℝ) (n : ℕ) :
    ((Circle.moveN n (Circle.new o col θ v)).position.x - o.x
        = (n : ℝ) * (Real.sin θ * v))
    ∧ ((Circle.moveN n (Circle.new o col θ v)).position.y - o.y
        = (n : ℝ) * (Real.cos θ * v) + 0.3 * ∑ i in Finset.range n, (i : ℝ))
    ∧ ∀ c : Circle,
        (Circle.move c).position.x = c.position.x + Real.sin c.angle * c.speed
        ∧ (Circle.move c).position.y
            = c.position.y + (Real.cos c.angle * c.speed + (c.renderCount : ℝ) * 0.3)
        ∧ (Circle.move c).renderCount = c.renderCount + 1 := by
  refine ⟨?_, ?_, fun c => ⟨rfl, rfl, rfl⟩⟩
  · rw [Circle.moveN_position_x]
    simp [Circle.new]
  · rw [Circle.moveN_position_y]
    simp [Circle.new]
    ring

/-- C3: one `Boom.move()` advances every particle and removes exactly those
whose post-move position is out of bounds (an order-preserving filter that
skips no entries); afterwards `stop` is true iff the particle list is empty,
equivalently iff every member particle moved out of the burst's stored
bounds. -/
theorem burst_step_cull_exact (b : Boom) :
    (Boom.move b).circles
        = (b.circles.map Circle.move).filter (fun c => decide (¬ outOfBounds b.area c))
    ∧ ((Boom.move b).stop = true ↔ (Boom.move b).circles = [])
    ∧ ((Boom.move b).stop = true ↔
        ∀ c ∈ b.circles, outOfBounds b.area (Circle.move c)) := by
  refine ⟨by rw [Boom.move_circles, Boom.moveCircles_eq_filter],
    Boom.move_stop_iff b, ?_⟩
  rw [Boom.move_stop_iff, Boom.move_circles, Boom.moveCircles_eq_filter]
  simp [List.filter_eq_nil_iff]

/-- C4: immediately after `init()` on a fresh burst with `circleCount = k`,
the particle list has length exactly `k` and `stop` is `false` (also for
`k = 0`, since `init` never touches `stop`). -/
theorem burst_init_count_and_not_exhausted (o : Point) (area : Area) (k : ℕ)
    (draws : ℕ → RandomDraws) :
    ((Boom.new o k area).init draws).circles.length = k
    ∧ ((Boom.new o k area).init draws).stop = false := by
  simp [Boom.init, Boom.new]

/-- C5: a burst initialized exactly once before its first tick is not
exhausted before that tick (`stop = false` right after `init`), and once
`stop` becomes true under `move()` it never reverts to false under further
`move()` calls. -/
theorem burst_exhausted_permanent (o : Point) (area : Area) (k : ℕ)
    (draws : ℕ → RandomDraws) :
    ((Boom.new o k area).init draws).stop = false
    ∧ ∀ n m : ℕ, n ≤ m →
        (Boom.moveN n ((Boom.new o k area).init draws)).stop = true →
        (Boom.moveN m ((Boom.new o k area).init draws)).stop = true := by
  have h0 : ((Boom.new o k area).init draws).stop = false := by
    simp [Boom.init, Boom.new]
  exact ⟨h0, fun n m hnm h => Boom.stop_persists _ h0 n m hnm h⟩

theorem burst_exhausted_permanent_witness :
    (1 : ℕ) ≤ 2
    ∧ (Boom.moveN 1 ((Boom.new ⟨0, 0⟩ 0 ⟨800, 600⟩).init
        fun _ => ⟨fun _ => 0, 0, 0⟩)).stop = true
    ∧ (Boom.moveN 2 ((Boom.new ⟨0, 0⟩ 0 ⟨800, 600⟩).init
        fun _ => ⟨fun _ => 0, 0, 0⟩)).stop = true := by
  have hstop : (Boom.moveN 1 ((Boom.new ⟨0, 0⟩ 0 ⟨800, 600⟩).init
      fun _ => ⟨fun _ => 0, 0, 0⟩)).stop = true := by
    simp [Boom.moveN, Boom.move, Boom.init, Boom.new, Boom.moveCircles]
  exact ⟨by norm_num, hstop,
    (burst_exhausted_permanent ⟨0, 0⟩ ⟨800, 600⟩ 0
      (fun _ => ⟨fun _ => 0, 0, 0⟩)).2 1 2 (by norm_num) hstop⟩

/-- C9: the particle count of a burst is monotonically non-increasing: one
`move()` never increases it, at the initial state and at every later
state of the `move()` iteration. -/
theorem burst_count_monotone (b : Boom) (n : ℕ) :
    (Boom.move b).circles.length ≤ b.circles.length
    ∧ (Boom.moveN (n + 1) b).circles.length
        ≤ (Boom.moveN n b).circles.length := by
  refine ⟨Boom.move_length_le b, ?_⟩
  rw [Boom.burstMoveN_succ]
  exact Boom.move_length_le _

/-- C10: for a non-empty `range` and a draw `r ∈ [0, 1)`, `#randomArray`
computes the index `⌊range.length · r⌋`, which is always strictly below
`range.length`, so it returns an actual element of `range` and the
`undefined` outcome is unreachable. -/
theorem random_pick_in_bounds (range : List String) (hne : range ≠ [])
    (r : ℝ) (h0 : 0 ≤ r) (h1 : r < 1) :
    Boom.randomArray range r = range.get? (⌊(range.length : ℝ) * r⌋).toNat
    ∧ (⌊(range.length : ℝ) * r⌋).toNat < range.length
    ∧ ∃ x, Boom.randomArray range r = some x ∧ x ∈ range :=
  Boom.randomArray_spec range hne r h0 h1

theorem random_pick_in_bounds_witness :
    colorRange ≠ [] ∧ (0 : ℝ) ≤ 1 / 2 ∧ (1 / 2 : ℝ) < 1
    ∧ (Boom.randomArray colorRange (1 / 2)
          = colorRange.get? (⌊(colorRange.length : ℝ) * (1 / 2)⌋).toNat
        ∧ (⌊(colorRange.length : ℝ) * (1 / 2)⌋).toNat < colorRange.length
        ∧ ∃ x, Boom.randomArray colorRange (1 / 2) = some x ∧ x ∈ colorRange) :=
  ⟨by simp [colorRange], by norm_num, by norm_num,
    random_pick_in_bounds colorRange (by simp [colorRange]) (1 / 2)
      (by norm_num) (by norm_num)⟩

/-- C8: with every `Math.random()` draw in `[0, 1)`, each particle created by
`init()` has the burst's origin, angle in `[π − 1, π + 1]`, speed in
`[1, 6]`, and a color consisting of the `#` palette marker followed by six
tokens each drawn from `{8, 9, A, B, C, D, E, F}`. -/
theorem burst_init_particle_properties (o : Point) (area : Area) (k : ℕ)
    (draws : ℕ → RandomDraws) (hv : ∀ i, (draws i).valid) :
    ∀ c ∈ ((Boom.new o k area).init draws).circles,
      c.origin = o
      ∧ (Real.pi - 1 ≤ c.angle ∧ c.angle ≤ Real.pi + 1)
      ∧ (1 ≤ c.speed ∧ c.speed ≤ 6)
      ∧ ∃ l : List String, l.length = 6 ∧ (∀ x ∈ l, x ∈ colorRange)
          ∧ c.color = "#" ++ String.join l := by
  intro c hc
  obtain ⟨i, hik, rfl⟩ := (Boom.mem_init o area k draws c).1 hc
  obtain ⟨hcol, hang, hspd⟩ := hv i
  refine ⟨rfl, ?_, ?_, ?_⟩
  · simpa [Circle.new] using
      Boom.randomRange_bounds (Real.pi - 1) (Real.pi + 1)
        (draws i).angleDraw (by linarith) hang.1 hang.2
  · simpa [Circle.new] using
      Boom.randomRange_bounds 1 6 (draws i).speedDraw (by norm_num)
        hspd.1 hspd.2
  · simpa [Circle.new] using Boom.randomColor_spec (draws i).colorDraws hcol

theorem burst_init_particle_properties_witness :
    (∀ _i : ℕ, (RandomDraws.mk (fun _ => 1 / 2) (1 / 2) (1 / 2)).valid)
    ∧ ∀ c ∈ ((Boom.new ⟨0, 0⟩ 1 ⟨800, 600⟩).init
        fun _ => RandomDraws.mk (fun _ => 1 / 2) (1 / 2) (1 / 2)).circles,
      c.origin = (⟨0, 0⟩ : Point)
      ∧ (Real.pi - 1 ≤ c.angle ∧ c.angle ≤ Real.pi + 1)
      ∧ (1 ≤ c.speed ∧ c.speed ≤ 6)
      ∧ ∃ l : List String, l.length = 6 ∧ (∀ x ∈ l, x ∈ colorRange)
          ∧ c.color = "#" ++ String.join l := by
  have hv : ∀ i : ℕ,
      ((fun _ : ℕ => RandomDraws.mk (fun _ => 1 / 2) (1 / 2) (1 / 2)) i).valid :=
    fun _ => ⟨fun _ => by norm_num, by norm_num, by norm_num⟩
  exact ⟨hv, burst_init_particle_properties ⟨0, 0⟩ ⟨800, 600⟩ 1 _ hv⟩

/-- C2: every burst whose particles all have speed in `[1, 6]` empties in
finitely many ticks and becomes exhausted (the `renderCount * 0.3` term in
the `y` update grows without bound, so every particle eventually passes
`y > area.height`); and a Running controller holding only that burst returns
to Idle after finitely many frame callbacks, with no further external
events: `running = false`, no bursts, handle nulled, and no outstanding
frame registration. -/
theorem burst_drains_and_controller_idles (b : Boom)
    (hsp : ∀ c ∈ b.circles, 1 ≤ c.speed ∧ c.speed ≤ 6)
    (s : Sys) (k : ℕ) (_hrun : s.running = true) (hb : s.booms = [b])
    (hp : s.pending = [k]) :
    (∃ T, 1 ≤ T ∧ (Boom.moveN T b).circles = []
        ∧ (Boom.moveN T b).stop = true)
    ∧ ∃ m, (fire^[m] s).running = false ∧ (fire^[m] s).booms = []
        ∧ (fire^[m] s).pending = [] ∧ (fire^[m] s).animationId = none := by
  have h06 : ∀ c ∈ b.circles, 0 ≤ c.speed ∧ c.speed ≤ 6 := fun c hc =>
    ⟨le_trans zero_le_one (hsp c hc).1, (hsp c hc).2⟩
  obtain ⟨T, hT1, hTnil, hTstop⟩ := Boom.exists_exhausted b h06
  exact ⟨⟨T, hT1, hTnil, hTstop⟩, drain_to_idle T b s hTnil hb k hp⟩

/-- A concrete one-particle burst used to instantiate the hypotheses of the
drain theorem. -/
noncomputable def witnessBoomC2 : Boom :=
  Boom.mk ⟨100, 100⟩ 10 ⟨800, 600⟩ false
    [Circle.new ⟨100, 100⟩ "#CCCCCC" Real.pi 2]

/-- A concrete Running controller state holding only `witnessBoomC2`. -/
noncomputable def witnessSysC2 : Sys :=
  Sys.mk ⟨800, 600⟩ ⟨800, 600⟩ 800 600 [witnessBoomC2] true (some 1) [1] 2

theorem burst_drains_and_controller_idles_witness :
    (∀ c ∈ witnessBoomC2.circles, 1 ≤ c.speed ∧ c.speed ≤ 6)
    ∧ witnessSysC2.running = true
    ∧ witnessSysC2.booms = [witnessBoomC2]
    ∧ witnessSysC2.pending = [1]
    ∧ ((∃ T, 1 ≤ T ∧ (Boom.moveN T witnessBoomC2).circles = []
          ∧ (Boom.moveN T witnessBoomC2).stop = true)
        ∧ ∃ m, (fire^[m] witnessSysC2).running = false
            ∧ (fire^[m] witnessSysC2).booms = []
            ∧ (fire^[m] witnessSysC2).pending = []
            ∧ (fire^[m] witnessSysC2).animationId = none) := by
  have hsp : ∀ c ∈ witnessBoomC2.circles, 1 ≤ c.speed ∧ c.speed ≤ 6 := by
    intro c hc
    simp only [witnessBoomC2, List.mem_singleton] at hc
    subst hc
    norm_num [Circle.new]
  exact ⟨hsp, rfl, rfl, rfl,
    burst_drains_and_controller_idles witnessBoomC2 hsp witnessSysC2 1
      rfl rfl rfl⟩

/-- C6: at every reachable state at most one scheduled-frame registration is
outstanding, and a `mousedown` while the controller is already running
appends the new burst but starts no second loop: `pending`, `running`,
`animationId` and `nextId` are untouched (the loop is only started on the
not-running-to-running transition). -/
theorem single_frame_registration (s : Sys) (hs : Reachable s) :
    s.pending.length ≤ 1
    ∧ (s.running = true → ∀ x y draws,
        (handleMouseDown x y draws s).booms
            = s.booms ++ [spawnBoom s x y draws]
        ∧ (handleMouseDown x y draws s).pending = s.pending
        ∧ (handleMouseDown x y draws s).running = s.running
        ∧ (handleMouseDown x y draws s).animationId = s.animationId
        ∧ (handleMouseDown x y draws s).nextId = s.nextId) := by
  have hinv := reachable_schedInv s hs
  constructor
  · cases hr : s.running with
    | true =>
      obtain ⟨j, -, hpj⟩ := hinv.1 hr
      rw [hpj]
      simp
    | false =>
      rw [hinv.2 hr]
      simp
  · intro hr x y draws
    simp [handleMouseDown, hr]

theorem single_frame_registration_witness :
    Reachable (initState 800 600)
    ∧ ((initState 800 600).pending.length ≤ 1
      ∧ ((initState 800 600).running = true → ∀ x y draws,
          (handleMouseDown x y draws (initState 800 600)).booms
              = (initState 800 600).booms
                ++ [spawnBoom (initState 800 600) x y draws]
          ∧ (handleMouseDown x y draws (initState 800 600)).pending
              = (initState 800 600).pending
          ∧ (handleMouseDown x y draws (initState 800 600)).running
              = (initState 800 600).running
          ∧ (handleMouseDown x y draws (initState 800 600)).animationId
              = (initState 800 600).animationId
          ∧ (handleMouseDown x y draws (initState 800 600)).nextId
              = (initState 800 600).nextId)) :=
  ⟨Reachable.init 800 600,
    single_frame_registration _ (Reachable.init 800 600)⟩

/-- C7: a resize updates only the viewport size and the two canvases; it
leaves every existing burst (hence its stored `area` snapshot) unchanged,
while a burst spawned before the resize carries the old viewport as its
bounds and one spawned after carries the new one. -/
theorem resize_updates_only_viewport (s : Sys) (w h x y : ℝ)
    (draws : ℕ → RandomDraws) :
    handleResize w h s
        = { s with
            globalWidth := w
            globalHeight := h
            renderCanvas := ⟨w, h⟩
            computerCanvas := ⟨w, h⟩ }
    ∧ (handleResize w h s).booms = s.booms
    ∧ (spawnBoom (handleResize w h s) x y draws).area = ⟨w, h⟩
    ∧ (spawnBoom s x y draws).area = ⟨s.globalWidth, s.globalHeight⟩ :=
  ⟨rfl, rfl, rfl, rfl⟩

end CursorFx
